import Mathlib

/-!
Shallow embedding of the network-path simulation engine of the mobile
networking app (source: `src/app/home.tsx`, advanced simulator screen).

The embedding translates, from the source:
  * the data model (`NetworkNode`, `Connection`, `Packet`, `NetworkStats`,
    packet filters),
  * the BFS path computation `findPath`,
  * the operations `sendPacket`, `updateNetworkStats`, the tick body of the
    simulation `setInterval` effect, `handleNodePress` (connection creation),
    the add-node button handler, `applyTopology`, `applyScenario` (with its
    four scenario setups), and `loadConfig`,
and proves the specification's claims about them.

JavaScript numbers are modelled as rationals (`ℚ`); all arithmetic the
engine performs on them (+, *, /) is exact on the values it uses.
JavaScript `Set` objects are modelled as lists used only through membership.
JavaScript objects used as string-keyed maps are modelled as association
lists in insertion order.
-/

namespace NetSim

/-- Node kind, from the `NetworkNode.type` union in the source. -/
inductive NodeType
  | router
  | switch
  | host
deriving DecidableEq, Repr

/-- Node status union `'active' | 'inactive' | 'error'`. -/
inductive NodeStatus
  | active
  | inactive
  | error
deriving DecidableEq, Repr

/-- Connection status union `'active' | 'inactive'`. -/
inductive ConnStatus
  | active
  | inactive
deriving DecidableEq, Repr

/-- Packet status union `'moving' | 'delivered' | 'dropped'`. -/
inductive PacketStatus
  | moving
  | delivered
  | dropped
deriving DecidableEq, Repr

/-- Packet type union `'TCP' | 'UDP' | 'ICMP'`. -/
inductive PacketType
  | TCP
  | UDP
  | ICMP
deriving DecidableEq, Repr

/-- The `NetworkNode` interface of the advanced simulator.  The `ip`,
`bandwidth`, `latency` and `packetLoss` fields are optional in the
TypeScript interface but are populated on every node the simulator
creates; `ip` stays optional here, the numeric fields are rationals. -/
structure NetworkNode where
  id : String
  type : NodeType
  label : String
  x : ℚ
  y : ℚ
  connections : List String
  status : NodeStatus
  ip : Option String := none
  bandwidth : ℚ := 0
  latency : ℚ := 0
  packetLoss : ℚ := 0
deriving DecidableEq, Repr

/-- The `Connection` interface. `from` is a Lean keyword, hence `«from»`. -/
structure Connection where
  id : String
  «from» : String
  «to» : String
  bandwidth : ℚ
  latency : ℚ
  packetLoss : ℚ
  status : ConnStatus
deriving DecidableEq, Repr

/-- The `Packet` interface of the advanced simulator. -/
structure Packet where
  id : String
  source : String
  destination : String
  data : String
  path : List String
  currentPosition : Nat
  status : PacketStatus
  type : PacketType
  timestamp : Nat
deriving DecidableEq, Repr

/-- Per-node entry of `NetworkStats.nodeStats`. -/
structure NodeStat where
  packetsSent : Nat
  packetsReceived : Nat
  bandwidthUsage : ℚ
  averageLatency : ℚ
deriving DecidableEq, Repr

/-- Per-type packet counters of `NetworkStats.packetTypes`. -/
structure PacketTypeCounts where
  TCP : Nat
  UDP : Nat
  ICMP : Nat
deriving DecidableEq, Repr

/-- The `NetworkStats` interface.  `nodeStats` is a string-keyed object in
the source, modelled as an association list in insertion order. -/
structure NetworkStats where
  totalPackets : Nat
  successfulPackets : Nat
  droppedPackets : Nat
  averageLatency : ℚ
  bandwidthUsage : ℚ
  packetTypes : PacketTypeCounts
  nodeStats : List (String × NodeStat)
deriving DecidableEq, Repr

/-- A per-node packet filter record (the value type of the
`packetFilters` state object). -/
structure PacketFilter where
  allowedTypes : List PacketType
  maxBandwidth : ℚ
  priority : ℚ
deriving DecidableEq, Repr

/-!
## The BFS path computation `findPath`

Source (`src/app/home.tsx`):

```
const findPath = (source, destination, nodes) => {
  const queue = [[source]];
  const visited = new Set();
  while (queue.length > 0) {
    const path = queue.shift()!;
    const current = path[path.length - 1];
    if (current === destination) { return path; }
    const currentNode = nodes.find(n => n.id === current);
    if (!currentNode) continue;
    for (const connection of currentNode.connections) {
      if (!visited.has(connection)) {
        visited.add(connection);
        queue.push([...path, connection]);
      }
    }
  }
  return [];
};
```

The inner `for` loop is embedded as `pushUnvisited`, returning the updated
visited set together with the list of paths pushed (in push order).
-/

/-- The body of the `for (const connection of currentNode.connections)`
loop: walk the connection list, adding unvisited ids to the visited set
and collecting the extended paths in push order. -/
def pushUnvisited (path : List String) : List String → List String →
    List String × List (List String)
  | [], visited => (visited, [])
  | c :: cs, visited =>
    if c ∈ visited then pushUnvisited path cs visited
    else
      let r := pushUnvisited path cs (c :: visited)
      (r.1, (path ++ [c]) :: r.2)

/-- All ids occurring in any node's connection list (used only for the
termination measure of the BFS loop). -/
def allIds : List NetworkNode → List String
  | [] => []
  | n :: ns => n.connections ++ allIds ns

/-- Number of ids of `allIds nodes` not yet visited (termination measure). -/
def unvisitedCount (nodes : List NetworkNode) (visited : List String) : Nat :=
  ((allIds nodes).filter (fun x => !decide (x ∈ visited))).length

theorem mem_allIds {nodes : List NetworkNode} {n : NetworkNode} {c : String}
    (hn : n ∈ nodes) (hc : c ∈ n.connections) : c ∈ allIds nodes := by
  induction nodes with
  | nil => cases hn
  | cons m ms ih =>
    rcases List.mem_cons.mp hn with h | h
    · subst h
      exact List.mem_append_left _ hc
    · exact List.mem_append_right _ (ih h)

theorem pushUnvisited_subset_fst (path : List String) :
    ∀ (cs visited : List String), visited ⊆ (pushUnvisited path cs visited).1 := by
  intro cs
  induction cs with
  | nil => intro visited x hx; simpa [pushUnvisited] using hx
  | cons c cs ih =>
    intro visited x hx
    by_cases hc : c ∈ visited
    · simpa [pushUnvisited, hc] using ih visited hx
    · simp only [pushUnvisited, if_neg hc]
      exact ih (c :: visited) (List.mem_cons_of_mem _ hx)

theorem pushUnvisited_mem_fst (path : List String) :
    ∀ (cs visited : List String) (c : String),
      c ∈ cs → c ∉ visited → c ∈ (pushUnvisited path cs visited).1 := by
  intro cs
  induction cs with
  | nil => intro visited c hc; cases hc
  | cons c0 cs ih =>
    intro visited c hc hnv
    rcases List.mem_cons.mp hc with h | h
    · subst h
      by_cases hc0 : c ∈ visited
      · exact absurd hc0 hnv
      · simp only [pushUnvisited, if_neg hc0]
        exact pushUnvisited_subset_fst path cs (c :: visited) (List.mem_cons_self _ _)
    · by_cases hc0 : c0 ∈ visited
      · simp only [pushUnvisited, if_pos hc0]
        exact ih visited c h hnv
      · simp only [pushUnvisited, if_neg hc0]
        by_cases hcc : c = c0
        · subst hcc
          exact pushUnvisited_subset_fst path cs (c :: visited) (List.mem_cons_self _ _)
        · exact ih (c0 :: visited) c h (by simp [hcc, hnv])

theorem pushUnvisited_snd_nil (path : List String) :
    ∀ (cs visited : List String),
      (pushUnvisited path cs visited).2 = [] →
      (pushUnvisited path cs visited).1 = visited := by
  intro cs
  induction cs with
  | nil => intro visited _; simp [pushUnvisited]
  | cons c cs ih =>
    intro visited h
    by_cases hc : c ∈ visited
    · simp only [pushUnvisited, if_pos hc] at h ⊢
      exact ih visited h
    · simp [pushUnvisited, if_neg hc] at h

theorem pushUnvisited_exists_of_snd_ne_nil (path : List String) :
    ∀ (cs visited : List String),
      (pushUnvisited path cs visited).2 ≠ [] →
      ∃ c, c ∈ cs ∧ c ∉ visited := by
  intro cs
  induction cs with
  | nil => intro visited h; simp [pushUnvisited] at h
  | cons c cs ih =>
    intro visited h
    by_cases hc : c ∈ visited
    · simp only [pushUnvisited, if_pos hc] at h
      obtain ⟨x, hx, hnx⟩ := ih visited h
      exact ⟨x, List.mem_cons_of_mem _ hx, hnx⟩
    · exact ⟨c, List.mem_cons_self _ _, hc⟩

theorem length_filter_not_mem_le {l v v' : List String} (hsub : v ⊆ v') :
    (l.filter (fun x => !decide (x ∈ v'))).length ≤
      (l.filter (fun x => !decide (x ∈ v))).length := by
  induction l with
  | nil => simp
  | cons a l ih =>
    by_cases ha' : a ∈ v'
    · rw [List.filter_cons_of_neg (by simp [ha'])]
      by_cases hav : a ∈ v
      · rw [List.filter_cons_of_neg (by simp [hav])]
        exact ih
      · rw [List.filter_cons_of_pos (by simp [hav])]
        simp only [List.length_cons]
        omega
    · have hav : a ∉ v := fun h => ha' (hsub h)
      rw [List.filter_cons_of_pos (by simp [ha']),
        List.filter_cons_of_pos (by simp [hav])]
      simp only [List.length_cons]
      omega

theorem length_filter_not_mem_lt {l v v' : List String} {x : String}
    (hx : x ∈ l) (hxv : x ∉ v) (hxv' : x ∈ v') (hsub : v ⊆ v') :
    (l.filter (fun y => !decide (y ∈ v'))).length <
      (l.filter (fun y => !decide (y ∈ v))).length := by
  induction l with
  | nil => cases hx
  | cons a l ih =>
    rcases List.mem_cons.mp hx with h | h
    · subst h
      rw [List.filter_cons_of_neg (by simp [hxv']),
        List.filter_cons_of_pos (by simp [hxv])]
      have h1 := length_filter_not_mem_le (l := l) hsub
      simp only [List.length_cons]
      omega
    · have h1 := ih h
      by_cases ha' : a ∈ v'
      · rw [List.filter_cons_of_neg (by simp [ha'])]
        by_cases hav : a ∈ v
        · rw [List.filter_cons_of_neg (by simp [hav])]
          exact h1
        · rw [List.filter_cons_of_pos (by simp [hav])]
          simp only [List.length_cons]
          omega
      · have hav : a ∉ v := fun hh => ha' (hsub hh)
        rw [List.filter_cons_of_pos (by simp [ha']),
          List.filter_cons_of_pos (by simp [hav])]
        simp only [List.length_cons]
        omega

/-- The adjacency lookup of the BFS loop body:
`const currentNode = nodes.find(n => n.id === current)` followed by the walk
over `currentNode.connections`; when the lookup fails (`if (!currentNode)
continue;`) the connection list is empty and nothing is pushed. -/
def adj (nodes : List NetworkNode) (u : String) : List String :=
  match nodes.find? (fun n => n.id == u) with
  | some node => node.connections
  | none => []

theorem adj_subset_allIds (nodes : List NetworkNode) (u : String) :
    ∀ x ∈ adj nodes u, x ∈ allIds nodes := by
  intro x hx
  unfold adj at hx
  rcases h : nodes.find? (fun n => n.id == u) with _ | node
  · rw [h] at hx; cases hx
  · rw [h] at hx
    exact mem_allIds (List.mem_of_find?_eq_some h) hx

/-- The BFS `while` loop of `findPath`.  `queue` holds the pending paths in
order (front of the list pops first, pushes append at the back), `visited`
is the visited set. -/
def bfsLoop (nodes : List NetworkNode) (destination : String) :
    List (List String) → List String → List String
  | [], _ => []
  | path :: rest, visited =>
    if path.getLast?.getD "" = destination then path
    else
      bfsLoop nodes destination
        (rest ++ (pushUnvisited path (adj nodes (path.getLast?.getD "")) visited).2)
        (pushUnvisited path (adj nodes (path.getLast?.getD "")) visited).1
termination_by queue visited => (unvisitedCount nodes visited, queue.length)
decreasing_by
  by_cases hp : (pushUnvisited path (adj nodes (path.getLast?.getD "")) visited).2 = []
  · rw [hp, pushUnvisited_snd_nil _ _ _ hp]
    apply Prod.Lex.right
    simp
  · obtain ⟨c, hc, hnc⟩ := pushUnvisited_exists_of_snd_ne_nil _ _ _ hp
    apply Prod.Lex.left
    exact length_filter_not_mem_lt (adj_subset_allIds nodes _ c hc) hnc
      (pushUnvisited_mem_fst _ _ _ c hc hnc)
      (pushUnvisited_subset_fst _ _ _)

/-- `findPath` in `src/app/home.tsx`: BFS from `source` towards
`destination` over the nodes' connection lists. -/
def findPath (source destination : String) (nodes : List NetworkNode) :
    List String :=
  bfsLoop nodes destination [[source]] []

/-!
## Correctness of `findPath`

A path is a nonempty list of ids starting at the source and linked by the
adjacency `adj` that the BFS follows (the `connections` list of the first
node found with the id being left). -/

/-- `p` is a walk of the graph starting at `s`: nonempty, begins with `s`,
and each consecutive pair is linked by the connection-list adjacency. -/
def IsPathFrom (nodes : List NetworkNode) (s : String) (p : List String) :
    Prop :=
  p.head? = some s ∧ List.Chain' (fun u v => v ∈ adj nodes u) p

instance (nodes : List NetworkNode) (s : String) (p : List String) :
    Decidable (IsPathFrom nodes s p) := by
  unfold IsPathFrom
  haveI : DecidableRel (fun u v : String => v ∈ adj nodes u) := fun u v =>
    inferInstanceAs (Decidable (v ∈ adj nodes u))
  exact @instDecidableAnd _ _ inferInstance (List.decidableChain' p)

/-- `d` can be reached from `s` through the connection-list adjacency. -/
def ReachableId (nodes : List NetworkNode) (s d : String) : Prop :=
  ∃ q, IsPathFrom nodes s q ∧ q.getLast? = some d

theorem ne_nil_of_head?_eq_some {l : List String} {a : String}
    (h : l.head? = some a) : l ≠ [] := by
  cases l with
  | nil => simp at h
  | cons x xs => simp

theorem getLast?_cons_of_ne_nil {a : String} {t : List String} (h : t ≠ []) :
    (a :: t).getLast? = t.getLast? := by
  cases t with
  | nil => exact absurd rfl h
  | cons b bs => simp [List.getLast?_cons_cons]

/-- Every path pushed by the loop body is the popped path extended by one
of the connections being scanned. -/
theorem pushUnvisited_snd_mem (path : List String) :
    ∀ (cs visited : List String) (r : List String),
      r ∈ (pushUnvisited path cs visited).2 → ∃ c ∈ cs, r = path ++ [c] := by
  intro cs
  induction cs with
  | nil => intro visited r h; simp [pushUnvisited] at h
  | cons c cs ih =>
    intro visited r h
    by_cases hc : c ∈ visited
    · simp only [pushUnvisited, if_pos hc] at h
      obtain ⟨x, hx, hr⟩ := ih visited r h
      exact ⟨x, List.mem_cons_of_mem _ hx, hr⟩
    · simp only [pushUnvisited, if_neg hc, List.mem_cons] at h
      rcases h with h | h
      · exact ⟨c, List.mem_cons_self _ _, h⟩
      · obtain ⟨x, hx, hr⟩ := ih (c :: visited) r h
        exact ⟨x, List.mem_cons_of_mem _ hx, hr⟩

/-- Every id newly added to the visited set had its extension pushed. -/
theorem pushUnvisited_mem_snd_of_new (path : List String) :
    ∀ (cs visited : List String) (x : String),
      x ∈ (pushUnvisited path cs visited).1 → x ∉ visited →
      (path ++ [x]) ∈ (pushUnvisited path cs visited).2 := by
  intro cs
  induction cs with
  | nil => intro visited x h hx; simp [pushUnvisited] at h; exact absurd h hx
  | cons c cs ih =>
    intro visited x h hx
    by_cases hc : c ∈ visited
    · simp only [pushUnvisited, if_pos hc] at h ⊢
      exact ih visited x h hx
    · simp only [pushUnvisited, if_neg hc] at h ⊢
      by_cases hxc : x = c
      · subst hxc
        exact List.mem_cons_self _ _
      · refine List.mem_cons_of_mem _ (ih (c :: visited) x h ?_)
        simp [hxc, hx]

/-- The covering-witness maintenance step: any pending shortest-path
witness that survives the pop of `path` can be repaired into a witness for
the new queue and visited set, without worsening its length budget. -/
theorem covers_extend (nodes : List NetworkNode) (d : String)
    (path : List String) (Q' : List (List String)) (A visited : List String)
    (hpush : ∀ r ∈ (pushUnvisited path A visited).2, r ∈ Q') :
    ∀ (n : Nat) (w p' : List String) (B : Nat), w.length = n →
      p' ∈ Q' →
      w.head? = some (p'.getLast?.getD "") →
      List.Chain' (fun u v => v ∈ adj nodes u) w →
      w.getLast? = some d →
      (∀ x ∈ w.tail, x ∉ visited) →
      path.length ≤ p'.length →
      p'.length + w.length ≤ B →
      ∃ p ∈ Q', ∃ w' : List String,
        w'.head? = some (p.getLast?.getD "") ∧
        List.Chain' (fun u v => v ∈ adj nodes u) w' ∧
        w'.getLast? = some d ∧
        (∀ x ∈ w'.tail, x ∉ (pushUnvisited path A visited).1) ∧
        p.length + w'.length ≤ B := by
  intro n
  induction n using Nat.strong_induction_on with
  | _ n IH =>
    intro w p' B hn hp' hhead hchain hlast hfresh hplen hbound
    by_cases hall : ∀ x ∈ w.tail, x ∉ (pushUnvisited path A visited).1
    · exact ⟨p', hp', w, hhead, hchain, hlast, hall, hbound⟩
    · push_neg at hall
      obtain ⟨x, hx_tail, hx_vis'⟩ := hall
      have hx_nvis : x ∉ visited := hfresh x hx_tail
      have hx_pushed : (path ++ [x]) ∈ (pushUnvisited path A visited).2 :=
        pushUnvisited_mem_snd_of_new path A visited x hx_vis' hx_nvis
      obtain ⟨w₀, wt, rfl⟩ : ∃ w₀ wt, w = w₀ :: wt := by
        cases w with
        | nil => simp at hhead
        | cons a t => exact ⟨a, t, rfl⟩
      have hx_tail' : x ∈ wt := hx_tail
      obtain ⟨i, hi, hwt⟩ := List.getElem_of_mem hx_tail'
      have hwtne : wt ≠ [] := by
        intro h
        rw [h] at hi
        simp at hi
      have hn' : n = wt.length + 1 := by
        simp only [List.length_cons] at hn
        omega
      -- the repaired witness: pop continues from `path ++ [x]`
      refine IH (wt.length - i) (by omega) (wt.drop i) (path ++ [x])
        B (by simp) (hpush _ hx_pushed) ?_ ?_ ?_ ?_ ?_ ?_
      · rw [List.head?_drop, List.getElem?_eq_getElem hi, hwt,
          List.getLast?_concat]
        rfl
      · exact (hchain.tail).drop i
      · rw [List.getLast?_drop, if_neg (by omega)]
        rw [getLast?_cons_of_ne_nil hwtne] at hlast
        exact hlast
      · intro y hy
        rw [List.tail_drop] at hy
        exact hfresh y (List.drop_subset _ _ hy)
      · simp
      · have hwtl : (wt.drop i).length = wt.length - i := by
          simp [List.length_drop]
        rw [hwtl]
        simp only [List.length_append, List.length_singleton]
        simp only [List.length_cons] at hbound
        omega

theorem getLast?_getD_of_ne_nil {l : List String} (h : l ≠ []) :
    l.getLast? = some (l.getLast?.getD "") := by
  rw [List.getLast?_eq_getLast l h]
  rfl

/-- Appending a neighbor of the last node extends a path. -/
theorem isPathFrom_append_adj {nodes : List NetworkNode} {s : String}
    {path : List String} {c : String} (hpath : IsPathFrom nodes s path)
    (hc : c ∈ adj nodes (path.getLast?.getD "")) :
    IsPathFrom nodes s (path ++ [c]) := by
  obtain ⟨hhead, hchain⟩ := hpath
  have hne : path ≠ [] := ne_nil_of_head?_eq_some hhead
  constructor
  · rw [List.head?_append, hhead]
    rfl
  · refine List.chain'_append.mpr ⟨hchain, List.chain'_singleton c, ?_⟩
    intro x hx y hy
    simp only [List.head?_cons, Option.mem_def, Option.some.injEq] at hy
    subst hy
    have hx' : path.getLast? = some x := hx
    have : x = path.getLast?.getD "" := by rw [hx']; rfl
    rw [this]
    exact hc

/-- A covering witness: a pending path `p` of the queue together with a
continuation walk `w` to `d` avoiding the visited set, within the length
budget of the target path `q`. -/
def Covers (nodes : List NetworkNode) (d : String) (Q : List (List String))
    (V : List String) (q : List String) : Prop :=
  ∃ p ∈ Q, ∃ w : List String,
    w.head? = some (p.getLast?.getD "") ∧
    List.Chain' (fun u v => v ∈ adj nodes u) w ∧
    w.getLast? = some d ∧
    (∀ x ∈ w.tail, x ∉ V) ∧
    p.length + w.length ≤ q.length + 1

/-- Invariant preservation through the whole loop: from a sound, sorted,
tight queue with a covering witness for `q`, the loop's result is a path
from `s` to `d` no longer than `q`. -/
theorem bfsLoop_spec (nodes : List NetworkNode) (s d : String) :
    ∀ (Q : List (List String)) (V : List String),
      (∀ p ∈ Q, IsPathFrom nodes s p) →
      Q.Pairwise (fun p r => p.length ≤ r.length) →
      (∀ p ∈ Q, ∀ r ∈ Q, p.length ≤ r.length + 1) →
      ∀ q : List String, Covers nodes d Q V q →
        IsPathFrom nodes s (bfsLoop nodes d Q V) ∧
        (bfsLoop nodes d Q V).getLast? = some d ∧
        (bfsLoop nodes d Q V).length ≤ q.length := by
  intro Q V
  induction Q, V using bfsLoop.induct nodes d with
  | case1 V =>
    intro _ _ _ q hcov
    obtain ⟨p, hp, _⟩ := hcov
    exact absurd hp (List.not_mem_nil p)
  | case2 path rest visited hhit =>
    intro hsound hsorted htight q hcov
    have heq : bfsLoop nodes d (path :: rest) visited = path := by
      simp only [bfsLoop, if_pos hhit]
    rw [heq]
    have hpath : IsPathFrom nodes s path := hsound path (List.mem_cons_self _ _)
    have hne0 : path ≠ [] := ne_nil_of_head?_eq_some hpath.1
    have hlast : path.getLast? = some d := by
      rw [getLast?_getD_of_ne_nil hne0, hhit]
    refine ⟨hpath, hlast, ?_⟩
    obtain ⟨p, hpQ, w, hw1, _, _, _, hw5⟩ := hcov
    have hwne : w ≠ [] := ne_nil_of_head?_eq_some hw1
    have hwlen : 1 ≤ w.length := List.length_pos.mpr hwne
    have hple : path.length ≤ p.length := by
      rcases List.mem_cons.mp hpQ with h | h
      · rw [h]
      · exact (List.pairwise_cons.mp hsorted).1 p h
    omega
  | case3 path rest visited hne IH =>
    intro hsound hsorted htight q hcov
    have heq : bfsLoop nodes d (path :: rest) visited =
        bfsLoop nodes d
          (rest ++ (pushUnvisited path (adj nodes (path.getLast?.getD ""))
            visited).2)
          (pushUnvisited path (adj nodes (path.getLast?.getD "")) visited).1 := by
      simp only [bfsLoop, if_neg hne]
    rw [heq]
    have hpath : IsPathFrom nodes s path := hsound path (List.mem_cons_self _ _)
    have hlen2 : ∀ r ∈ (pushUnvisited path
        (adj nodes (path.getLast?.getD "")) visited).2,
        r.length = path.length + 1 := by
      intro r hr
      obtain ⟨c, _, rfl⟩ := pushUnvisited_snd_mem path _ visited r hr
      simp
    have hrest_lb : ∀ x ∈ rest, path.length ≤ x.length :=
      (List.pairwise_cons.mp hsorted).1
    have hrest_ub : ∀ x ∈ rest, x.length ≤ path.length + 1 := fun x hx =>
      htight x (List.mem_cons_of_mem _ hx) path (List.mem_cons_self _ _)
    refine IH ?_ ?_ ?_ q ?_
    · -- soundness of the new queue
      intro p hp
      rcases List.mem_append.mp hp with h | h
      · exact hsound p (List.mem_cons_of_mem _ h)
      · obtain ⟨c, hcA, rfl⟩ := pushUnvisited_snd_mem path _ visited p h
        exact isPathFrom_append_adj hpath hcA
    · -- sortedness
      refine List.pairwise_append.mpr ⟨(List.pairwise_cons.mp hsorted).2, ?_, ?_⟩
      · exact List.pairwise_of_forall_mem_list fun a ha b hb => by
          rw [hlen2 a ha, hlen2 b hb]
      · intro a ha b hb
        rw [hlen2 b hb]
        exact hrest_ub a ha
    · -- tightness
      intro p hp r hr
      rcases List.mem_append.mp hp with h | h <;>
        rcases List.mem_append.mp hr with h' | h'
      · have := hrest_ub p h
        have := hrest_lb r h'
        omega
      · have := hrest_ub p h
        have := hlen2 r h'
        omega
      · have := hlen2 p h
        have := hrest_lb r h'
        omega
      · have := hlen2 p h
        have := hlen2 r h'
        omega
    · -- the covering witness survives the pop
      obtain ⟨p, hpQ, w, hw1, hw2, hw3, hw4, hw5⟩ := hcov
      rcases List.mem_cons.mp hpQ with hp | hp
      · -- the popped path itself carried the witness: step one hop along `w`
        rw [hp] at hw1 hw5
        obtain ⟨w₀, wt, rfl⟩ : ∃ w₀ wt, w = w₀ :: wt := by
          cases w with
          | nil => simp at hw1
          | cons a t => exact ⟨a, t, rfl⟩
        have hw₀ : w₀ = path.getLast?.getD "" := by
          simp only [List.head?_cons, Option.some.injEq] at hw1
          exact hw1
        obtain ⟨c₁, wt', rfl⟩ : ∃ c₁ wt', wt = c₁ :: wt' := by
          cases wt with
          | nil =>
            exfalso
            apply hne
            simp only [List.getLast?_singleton, Option.some.injEq] at hw3
            rw [← hw₀, hw3]
          | cons a t => exact ⟨a, t, rfl⟩
        have hc₁A : c₁ ∈ adj nodes (path.getLast?.getD "") := by
          rw [← hw₀]
          exact (List.chain'_cons.mp hw2).1
        have hc₁nv : c₁ ∉ visited := hw4 c₁ (List.mem_cons_self _ _)
        have hc₁fst : c₁ ∈ (pushUnvisited path
            (adj nodes (path.getLast?.getD "")) visited).1 :=
          pushUnvisited_mem_fst path _ visited c₁ hc₁A hc₁nv
        have hpushed : (path ++ [c₁]) ∈ (pushUnvisited path
            (adj nodes (path.getLast?.getD "")) visited).2 :=
          pushUnvisited_mem_snd_of_new path _ visited c₁ hc₁fst hc₁nv
        refine covers_extend nodes d path _ _ visited
          (fun r hr => List.mem_append_right _ hr) (c₁ :: wt').length
          (c₁ :: wt') (path ++ [c₁]) (q.length + 1) rfl
          (List.mem_append_right _ hpushed) ?_ (List.chain'_cons.mp hw2).2 ?_
          ?_ (by simp) ?_
        · rw [List.getLast?_concat]
          rfl
        · rw [getLast?_cons_of_ne_nil (by simp)] at hw3
          exact hw3
        · intro x hx
          exact hw4 x (List.mem_cons_of_mem _ hx)
        · simp only [List.length_append, List.length_singleton,
            List.length_cons, List.length_nil] at hw5 ⊢
          omega
      · -- the witness path is still queued
        refine covers_extend nodes d path _ _ visited
          (fun r hr => List.mem_append_right _ hr) w.length w p
          (q.length + 1) rfl (List.mem_append_left _ hp) hw1 hw2 hw3 hw4
          (hrest_lb p hp) hw5

/-- When the destination is reachable, `findPath` returns a path from `s`
to `d` of minimal length. -/
theorem findPath_shortest (nodes : List NetworkNode) (s d : String)
    (h : ReachableId nodes s d) :
    IsPathFrom nodes s (findPath s d nodes) ∧
    (findPath s d nodes).getLast? = some d ∧
    ∀ q, IsPathFrom nodes s q → q.getLast? = some d →
      (findPath s d nodes).length ≤ q.length := by
  have base : ∀ q, IsPathFrom nodes s q → q.getLast? = some d →
      IsPathFrom nodes s (findPath s d nodes) ∧
      (findPath s d nodes).getLast? = some d ∧
      (findPath s d nodes).length ≤ q.length := by
    intro q hq hqd
    refine bfsLoop_spec nodes s d [[s]] [] ?_ ?_ ?_ q ?_
    · intro p hp
      simp only [List.mem_singleton] at hp
      subst hp
      exact ⟨rfl, List.chain'_singleton s⟩
    · simp
    · intro p hp r hr
      simp only [List.mem_singleton] at hp hr
      subst hp
      subst hr
      omega
    · refine ⟨[s], List.mem_singleton_self _, q, ?_, hq.2, hqd, ?_, ?_⟩
      · exact hq.1
      · simp
      · simp only [List.length_singleton]
        omega
  obtain ⟨q₀, hq₀, hq₀d⟩ := h
  exact ⟨(base q₀ hq₀ hq₀d).1, (base q₀ hq₀ hq₀d).2.1,
    fun q hq hqd => (base q hq hqd).2.2⟩

/-- Unconditionally, the loop either returns the empty sequence or a path
from `s` ending at `d` (soundness, used for the unreachable case). -/
theorem bfsLoop_sound (nodes : List NetworkNode) (s d : String) :
    ∀ (Q : List (List String)) (V : List String),
      (∀ p ∈ Q, IsPathFrom nodes s p) →
      bfsLoop nodes d Q V = [] ∨
        (IsPathFrom nodes s (bfsLoop nodes d Q V) ∧
          (bfsLoop nodes d Q V).getLast? = some d) := by
  intro Q V
  induction Q, V using bfsLoop.induct nodes d with
  | case1 V =>
    intro _
    left
    simp [bfsLoop]
  | case2 path rest visited hhit =>
    intro hsound
    have heq : bfsLoop nodes d (path :: rest) visited = path := by
      simp only [bfsLoop, if_pos hhit]
    rw [heq]
    have hpath : IsPathFrom nodes s path := hsound path (List.mem_cons_self _ _)
    have hne0 : path ≠ [] := ne_nil_of_head?_eq_some hpath.1
    right
    refine ⟨hpath, ?_⟩
    rw [getLast?_getD_of_ne_nil hne0, hhit]
  | case3 path rest visited hne IH =>
    intro hsound
    have heq : bfsLoop nodes d (path :: rest) visited =
        bfsLoop nodes d
          (rest ++ (pushUnvisited path (adj nodes (path.getLast?.getD ""))
            visited).2)
          (pushUnvisited path (adj nodes (path.getLast?.getD "")) visited).1 := by
      simp only [bfsLoop, if_neg hne]
    rw [heq]
    refine IH ?_
    intro p hp
    rcases List.mem_append.mp hp with h | h
    · exact hsound p (List.mem_cons_of_mem _ h)
    · obtain ⟨c, hcA, rfl⟩ := pushUnvisited_snd_mem path _ visited p h
      exact isPathFrom_append_adj (hsound path (List.mem_cons_self _ _)) hcA

/-- If the destination is unreachable, `findPath` returns `[]`. -/
theorem findPath_eq_nil_of_not_reachable (nodes : List NetworkNode)
    (s d : String) (h : ¬ ReachableId nodes s d) :
    findPath s d nodes = [] := by
  have hs : ∀ p ∈ ([[s]] : List (List String)), IsPathFrom nodes s p := by
    intro p hp
    simp only [List.mem_singleton] at hp
    subst hp
    exact ⟨rfl, List.chain'_singleton s⟩
  rcases bfsLoop_sound nodes s d [[s]] [] hs with h' | h'
  · exact h'
  · exact absurd ⟨findPath s d nodes, h'.1, h'.2⟩ h

/-!
## Simulator state and operations

The advanced simulator screen's engine state and the handlers that mutate
it (`src/app/home.tsx`, lines 2217-3100). -/

/-- The engine-relevant `useState` slots of the simulator screen. -/
structure SimState where
  nodes : List NetworkNode
  connections : List Connection
  packets : List Packet
  networkStats : NetworkStats
  packetFilters : List (String × PacketFilter)
  selectedNode : Option String
  packetType : PacketType
deriving DecidableEq, Repr

/-- `newStats.packetTypes[packet.type]++`. -/
def bumpType (c : PacketTypeCounts) : PacketType → PacketTypeCounts
  | .TCP => { c with TCP := c.TCP + 1 }
  | .UDP => { c with UDP := c.UDP + 1 }
  | .ICMP => { c with ICMP := c.ICMP + 1 }

/-- Key lookup in the `nodeStats` object. -/
def statLookup (ns : List (String × NodeStat)) (k : String) : Option NodeStat :=
  (ns.find? (fun e => e.1 == k)).map Prod.snd

/-- `if (!newStats.nodeStats[k]) newStats.nodeStats[k] = {0,0,0,0}`. -/
def ensureStat (ns : List (String × NodeStat)) (k : String) :
    List (String × NodeStat) :=
  match statLookup ns k with
  | some _ => ns
  | none => ns ++ [(k, ⟨0, 0, 0, 0⟩)]

/-- In-place update of the entry with key `k`. -/
def updateStat (ns : List (String × NodeStat)) (k : String)
    (f : NodeStat → NodeStat) : List (String × NodeStat) :=
  ns.map (fun e => if e.1 = k then (e.1, f e.2) else e)

/-- `updateNetworkStats` in the source: bumps the total and per-type
counters, ensures source/destination entries, bumps sent/received, and when
a direct connection between source and destination exists also folds its
latency into the source's running average and adds its bandwidth; finally
recomputes the overall average latency and bandwidth usage. -/
def updateNetworkStatsFn (connections : List Connection)
    (stats : NetworkStats) (packet : Packet) : NetworkStats :=
  let s1 : NetworkStats := { stats with
    totalPackets := stats.totalPackets + 1,
    packetTypes := bumpType stats.packetTypes packet.type }
  let ns1 := ensureStat s1.nodeStats packet.source
  let ns2 := ensureStat ns1 packet.destination
  let ns3 := updateStat ns2 packet.source
    (fun st => { st with packetsSent := st.packetsSent + 1 })
  let ns4 := updateStat ns3 packet.destination
    (fun st => { st with packetsReceived := st.packetsReceived + 1 })
  let ns5 :=
    match connections.find? (fun c =>
        (c.«from» == packet.source && c.«to» == packet.destination) ||
        (c.«from» == packet.destination && c.«to» == packet.source)) with
    | some conn =>
      updateStat ns4 packet.source (fun st =>
        { st with
          averageLatency :=
            (st.averageLatency * ((st.packetsSent : ℚ) - 1) + conn.latency) /
              (st.packetsSent : ℚ),
          bandwidthUsage := st.bandwidthUsage + conn.bandwidth })
    | none => ns4
  { s1 with
    nodeStats := ns5,
    averageLatency :=
      (ns5.map (fun e => e.2.averageLatency)).sum / (ns5.length : ℚ),
    bandwidthUsage := (ns5.map (fun e => e.2.bandwidthUsage)).sum }

/-- `sendPacket(source, destination, data)`: computes the path; on an empty
path returns with no state change, otherwise records a new moving packet at
position 0 and updates the statistics.  `Date.now()` is the parameter
`now`. -/
def sendPacketOp (source destination data : String) (now : Nat)
    (σ : SimState) : SimState :=
  let path := findPath source destination σ.nodes
  if path.length = 0 then σ
  else
    let newPacket : Packet := {
      id := "p" ++ toString now,
      source := source,
      destination := destination,
      data := data,
      path := path,
      currentPosition := 0,
      status := .moving,
      type := σ.packetType,
      timestamp := now }
    { σ with
      packets := σ.packets ++ [newPacket],
      networkStats :=
        updateNetworkStatsFn σ.connections σ.networkStats newPacket }

/-- Per-packet body of the simulation `setInterval` effect:
non-moving packets are returned unchanged; otherwise the position advances
by one, or — when the incremented position reaches the path length — the
status becomes `delivered` (the position field is left as it was). -/
def tickPacket (packet : Packet) : Packet :=
  if packet.status ≠ .moving then packet
  else
    if packet.currentPosition + 1 ≥ packet.path.length then
      { packet with status := .delivered }
    else
      { packet with currentPosition := packet.currentPosition + 1 }

/-- One tick of the simulation interval: maps `tickPacket` over the packet
list; no other state field is read or written. -/
def tickOp (σ : SimState) : SimState :=
  { σ with packets := σ.packets.map tickPacket }

/-- `handleNodePress(nodeId)`: with a previously selected distinct node,
creates the connection record and appends each endpoint's id to the other
endpoint's connection list; otherwise toggles the selection. -/
def handleNodePressOp (nodeId : String) (σ : SimState) : SimState :=
  match σ.selectedNode with
  | some selected =>
    if selected ≠ nodeId then
      let newConnection : Connection := {
        id := "C" ++ toString (σ.connections.length + 1),
        «from» := selected,
        «to» := nodeId,
        bandwidth := 100,
        latency := 1,
        packetLoss := 1/20,
        status := .active }
      { σ with
        connections := σ.connections ++ [newConnection],
        nodes := σ.nodes.map (fun node =>
          if node.id = selected then
            { node with connections := node.connections ++ [nodeId] }
          else if node.id = nodeId then
            { node with connections := node.connections ++ [selected] }
          else node),
        selectedNode := none }
    else { σ with selectedNode := none }
  | none => { σ with selectedNode := some nodeId }

/-- Modelled from the spec: the repository implements connection creation
(`handleNodePress`) but contains no remove-connection handler; the spec's
`removeConnection` operation ("removing must do the reverse", "after
removeConnection(a,b), neither appears in the other's" link set) is
modelled here as removing the connection records between `a` and `b` and
removing each endpoint's id from the other endpoint's link set. -/
def removeConnectionOp (a b : String) (σ : SimState) : SimState :=
  { σ with
    connections := σ.connections.filter (fun c =>
      !((c.«from» == a && c.«to» == b) || (c.«from» == b && c.«to» == a))),
    nodes := σ.nodes.map (fun node =>
      if node.id = a then
        { node with connections := node.connections.filter (fun x => x ≠ b) }
      else if node.id = b then
        { node with connections := node.connections.filter (fun x => x ≠ a) }
      else node) }

/-- Display name of a node type (`type.charAt(0).toUpperCase() +
type.slice(1)`). -/
def nodeTypeName : NodeType → String
  | .router => "Router"
  | .switch => "Switch"
  | .host => "Host"

/-- The Add Node button handler: appends a fresh unconnected node with
type-dependent defaults. -/
def addNodeOp (t : NodeType) (ip : String) (σ : SimState) : SimState :=
  let newNode : NetworkNode := {
    id := "N" ++ toString (σ.nodes.length + 1),
    type := t,
    label := nodeTypeName t ++ " " ++ toString (σ.nodes.length + 1),
    x := 200,
    y := 200,
    connections := [],
    status := .active,
    ip := some ip,
    bandwidth := match t with | .router => 1000 | .switch => 100 | .host => 10,
    latency := match t with | .router => 5 | .switch => 1 | .host => 1/2,
    packetLoss :=
      match t with | .router => 1/10 | .switch => 1/20 | .host => 0 }
  { σ with nodes := σ.nodes ++ [newNode] }

/-- `applyTopology(topology)`: replaces the node set with a generated
layout and clears the connection list.  The three generator functions
(star, mesh, bus) compute node positions with floating-point trigonometry;
the generated list is therefore taken as the parameter `newNodes`
(standing for `networkTopologies[topology].create()`). -/
def applyTopologyOp (newNodes : List NetworkNode) (σ : SimState) : SimState :=
  { σ with nodes := newNodes, connections := [] }

/-- Result triple of a `simulationScenarios[...].setup` call. -/
structure ScenarioResult where
  nodes : List NetworkNode
  connections : List Connection
  packetFilters : List (String × PacketFilter)
deriving DecidableEq, Repr

/-- `simulationScenarios.normal.setup`. -/
def normalSetup (nodes : List NetworkNode) (connections : List Connection) :
    ScenarioResult :=
  { nodes := nodes.map (fun node => { node with status := .active }),
    connections :=
      connections.map (fun conn => { conn with status := .active }),
    packetFilters := [] }

/-- `simulationScenarios.congestion.setup`: every node becomes active with
latency tripled and packet loss doubled; every connection becomes active
with latency tripled, packet loss doubled and bandwidth halved; packet
filters are cleared. -/
def congestionSetup (nodes : List NetworkNode)
    (connections : List Connection) : ScenarioResult :=
  { nodes := nodes.map (fun node => { node with
      status := .active,
      latency := node.latency * 3,
      packetLoss := node.packetLoss * 2 }),
    connections := connections.map (fun conn => { conn with
      status := .active,
      latency := conn.latency * 3,
      packetLoss := conn.packetLoss * 2,
      bandwidth := conn.bandwidth * (1/2) }),
    packetFilters := [] }

/-- `simulationScenarios.failure.setup`.  The source draws
`failedNodes` by shuffling the router/switch nodes with the ambient
`Math.random` and taking two; that selection is passed in as the
parameter `failedNodes`. -/
def failureSetup (failedNodes : List NetworkNode)
    (nodes : List NetworkNode) (connections : List Connection) :
    ScenarioResult :=
  { nodes := nodes.map (fun node => { node with
      status :=
        if failedNodes.any (fun n => n.id == node.id) then .inactive
        else .active }),
    connections := connections.map (fun conn => { conn with
      status :=
        if failedNodes.any (fun n => n.id == conn.«from» || n.id == conn.«to»)
        then .inactive
        else .active }),
    packetFilters := [] }

/-- Per-node filter record installed by the security scenario. -/
def securityFilter (node : NetworkNode) : PacketFilter :=
  { allowedTypes :=
      match node.type with
      | .router => [.TCP, .UDP, .ICMP]
      | .switch => [.TCP, .UDP]
      | .host => [.TCP],
    maxBandwidth := node.bandwidth * (7/10),
    priority := match node.type with | .router => 3 | .switch => 2 | .host => 1 }

/-- `{...filters, [node.id]: v}`: replace the entry in place when the key
exists, otherwise append. -/
def insertReplace (fs : List (String × PacketFilter)) (k : String)
    (v : PacketFilter) : List (String × PacketFilter) :=
  if fs.any (fun e => e.1 == k) then
    fs.map (fun e => if e.1 == k then (e.1, v) else e)
  else fs ++ [(k, v)]

/-- `simulationScenarios.security.setup`. -/
def securitySetup (nodes : List NetworkNode)
    (connections : List Connection) : ScenarioResult :=
  { nodes := nodes.map (fun node => { node with
      status := .active,
      bandwidth := node.bandwidth * (7/10) }),
    connections := connections.map (fun conn => { conn with
      status := .active,
      bandwidth := conn.bandwidth * (7/10) }),
    packetFilters :=
      nodes.foldl (fun fs node =>
        insertReplace fs node.id (securityFilter node)) [] }

/-- The four keys of `simulationScenarios`. -/
inductive ScenarioKind
  | normal
  | congestion
  | failure
  | security
deriving DecidableEq, Repr

/-- `applyScenario(scenario)`: applies the scenario's setup to the current
nodes and connections and installs the resulting triple. -/
def applyScenarioOp (k : ScenarioKind) (failedNodes : List NetworkNode)
    (σ : SimState) : SimState :=
  let r := match k with
    | .normal => normalSetup σ.nodes σ.connections
    | .congestion => congestionSetup σ.nodes σ.connections
    | .failure => failureSetup failedNodes σ.nodes σ.connections
    | .security => securitySetup σ.nodes σ.connections
  { σ with
    nodes := r.nodes,
    connections := r.connections,
    packetFilters := r.packetFilters }

/-- The `NetworkConfig` interface (saved topology snapshot). -/
structure NetworkConfig where
  nodes : List NetworkNode
  connections : List Connection
  packetFilters : List (String × PacketFilter)
  name : String
  description : String
  date : String
deriving DecidableEq, Repr

/-- `loadConfig(config)`: replaces nodes, connections and packet filters. -/
def loadConfigOp (config : NetworkConfig) (σ : SimState) : SimState :=
  { σ with
    nodes := config.nodes,
    connections := config.connections,
    packetFilters := config.packetFilters }

/-- The `networkStats` initial state. -/
def initialStats : NetworkStats :=
  { totalPackets := 0,
    successfulPackets := 0,
    droppedPackets := 0,
    averageLatency := 0,
    bandwidthUsage := 0,
    packetTypes := { TCP := 0, UDP := 0, ICMP := 0 },
    nodeStats := [] }

/-- The `initialNodes` constant of the advanced simulator. -/
def initialNodes : List NetworkNode :=
  [ { id := "R1", type := .router, label := "Router 1", x := 100, y := 100,
      connections := ["S1", "R2"], status := .active,
      ip := some "192.168.1.1", bandwidth := 1000, latency := 5,
      packetLoss := 1/10 },
    { id := "R2", type := .router, label := "Router 2", x := 300, y := 100,
      connections := ["R1", "S2"], status := .active,
      ip := some "192.168.1.2", bandwidth := 1000, latency := 5,
      packetLoss := 1/10 },
    { id := "S1", type := .switch, label := "Switch 1", x := 100, y := 250,
      connections := ["R1", "H1", "H2"], status := .active,
      ip := some "192.168.1.3", bandwidth := 100, latency := 1,
      packetLoss := 1/20 },
    { id := "S2", type := .switch, label := "Switch 2", x := 300, y := 250,
      connections := ["R2", "H3", "H4"], status := .active,
      ip := some "192.168.1.4", bandwidth := 100, latency := 1,
      packetLoss := 1/20 },
    { id := "H1", type := .host, label := "Host 1", x := 50, y := 400,
      connections := ["S1"], status := .active,
      ip := some "192.168.1.5", bandwidth := 10, latency := 1/2,
      packetLoss := 0 },
    { id := "H2", type := .host, label := "Host 2", x := 150, y := 400,
      connections := ["S1"], status := .active,
      ip := some "192.168.1.6", bandwidth := 10, latency := 1/2,
      packetLoss := 0 },
    { id := "H3", type := .host, label := "Host 3", x := 250, y := 400,
      connections := ["S2"], status := .active,
      ip := some "192.168.1.7", bandwidth := 10, latency := 1/2,
      packetLoss := 0 },
    { id := "H4", type := .host, label := "Host 4", x := 350, y := 400,
      connections := ["S2"], status := .active,
      ip := some "192.168.1.8", bandwidth := 10, latency := 1/2,
      packetLoss := 0 } ]

/-- The initial screen state: initial nodes, no connections, no packets,
zeroed statistics, no filters, no selection, TCP packet type. -/
def initState : SimState :=
  { nodes := initialNodes,
    connections := [],
    packets := [],
    networkStats := initialStats,
    packetFilters := [],
    selectedNode := none,
    packetType := .TCP }

/-- One engine-visible operation of the simulator screen.  The ambient
inputs the source reads (typed text, `Date.now()`, the random shuffle of
the failure scenario, the generated topology layout) are constructor
parameters. -/
inductive Step : SimState → SimState → Prop
  | send (σ : SimState) (source destination data : String) (now : Nat) :
      Step σ (sendPacketOp source destination data now σ)
  | tick (σ : SimState) : Step σ (tickOp σ)
  | nodePress (σ : SimState) (nodeId : String) :
      Step σ (handleNodePressOp nodeId σ)
  | addNode (σ : SimState) (t : NodeType) (ip : String) :
      Step σ (addNodeOp t ip σ)
  | applyTopology (σ : SimState) (newNodes : List NetworkNode) :
      Step σ (applyTopologyOp newNodes σ)
  | applyScenario (σ : SimState) (k : ScenarioKind)
      (failedNodes : List NetworkNode) :
      Step σ (applyScenarioOp k failedNodes σ)
  | loadConfig (σ : SimState) (config : NetworkConfig) :
      Step σ (loadConfigOp config σ)
  | selectPacketType (σ : SimState) (t : PacketType) :
      Step σ { σ with packetType := t }

/-- A state the simulator screen can reach from its initial state. -/
def Reach (σ : SimState) : Prop :=
  Relation.ReflTransGen Step initState σ

/-!
## Concrete fixtures -/

/-- The spec's concrete three-node line topology A—B—C
(A host, B switch, C host, links A-B and B-C). -/
def lineNodes : List NetworkNode :=
  [ { id := "A", type := .host, label := "Host A", x := 0, y := 0,
      connections := ["B"], status := .active },
    { id := "B", type := .switch, label := "Switch B", x := 0, y := 0,
      connections := ["A", "C"], status := .active },
    { id := "C", type := .host, label := "Host C", x := 0, y := 0,
      connections := ["B"], status := .active } ]

/-- The screen state after installing the line topology. -/
def lineState : SimState :=
  applyTopologyOp lineNodes initState

/-- A diamond graph with two distinct shortest paths A-B-D and A-C-D;
`B` precedes `C` in `A`'s connection list. -/
def diamondNodes : List NetworkNode :=
  [ { id := "A", type := .host, label := "A", x := 0, y := 0,
      connections := ["B", "C"], status := .active },
    { id := "B", type := .switch, label := "B", x := 0, y := 0,
      connections := ["A", "D"], status := .active },
    { id := "C", type := .switch, label := "C", x := 0, y := 0,
      connections := ["A", "D"], status := .active },
    { id := "D", type := .host, label := "D", x := 0, y := 0,
      connections := ["B", "C"], status := .active } ]

/-!
## Frame lemmas: which state fields each operation touches -/

theorem handleNodePressOp_packets (nodeId : String) (σ : SimState) :
    (handleNodePressOp nodeId σ).packets = σ.packets := by
  unfold handleNodePressOp
  cases σ.selectedNode with
  | none => rfl
  | some selected =>
    by_cases h : selected ≠ nodeId <;> simp [h]

theorem handleNodePressOp_stats (nodeId : String) (σ : SimState) :
    (handleNodePressOp nodeId σ).networkStats = σ.networkStats := by
  unfold handleNodePressOp
  cases σ.selectedNode with
  | none => rfl
  | some selected =>
    by_cases h : selected ≠ nodeId <;> simp [h]

theorem addNodeOp_packets (t : NodeType) (ip : String) (σ : SimState) :
    (addNodeOp t ip σ).packets = σ.packets := rfl

theorem addNodeOp_stats (t : NodeType) (ip : String) (σ : SimState) :
    (addNodeOp t ip σ).networkStats = σ.networkStats := rfl

theorem applyTopologyOp_packets (newNodes : List NetworkNode) (σ : SimState) :
    (applyTopologyOp newNodes σ).packets = σ.packets := rfl

theorem applyTopologyOp_stats (newNodes : List NetworkNode) (σ : SimState) :
    (applyTopologyOp newNodes σ).networkStats = σ.networkStats := rfl

theorem applyScenarioOp_packets (k : ScenarioKind)
    (failedNodes : List NetworkNode) (σ : SimState) :
    (applyScenarioOp k failedNodes σ).packets = σ.packets := by
  cases k <;> rfl

theorem applyScenarioOp_stats (k : ScenarioKind)
    (failedNodes : List NetworkNode) (σ : SimState) :
    (applyScenarioOp k failedNodes σ).networkStats = σ.networkStats := by
  cases k <;> rfl

theorem loadConfigOp_packets (config : NetworkConfig) (σ : SimState) :
    (loadConfigOp config σ).packets = σ.packets := rfl

theorem loadConfigOp_stats (config : NetworkConfig) (σ : SimState) :
    (loadConfigOp config σ).networkStats = σ.networkStats := rfl

theorem tickOp_stats (σ : SimState) :
    (tickOp σ).networkStats = σ.networkStats := rfl

theorem updateNetworkStatsFn_successful (connections : List Connection)
    (stats : NetworkStats) (packet : Packet) :
    (updateNetworkStatsFn connections stats packet).successfulPackets =
      stats.successfulPackets := rfl

theorem updateNetworkStatsFn_dropped (connections : List Connection)
    (stats : NetworkStats) (packet : Packet) :
    (updateNetworkStatsFn connections stats packet).droppedPackets =
      stats.droppedPackets := rfl

/-- The fields `tickPacket` can never change. -/
theorem tickPacket_frame (p : Packet) :
    (tickPacket p).path = p.path ∧
    (tickPacket p).id = p.id ∧
    (tickPacket p).source = p.source ∧
    (tickPacket p).destination = p.destination ∧
    (tickPacket p).data = p.data ∧
    (tickPacket p).type = p.type ∧
    (tickPacket p).timestamp = p.timestamp := by
  unfold tickPacket
  by_cases h : p.status ≠ PacketStatus.moving
  · simp [h]
  · by_cases h2 : p.currentPosition + 1 ≥ p.path.length <;> simp [h, h2]

/-- A packet not in the `moving` state is returned unchanged by the tick
body. -/
theorem tickPacket_of_not_moving {p : Packet}
    (h : p.status ≠ PacketStatus.moving) : tickPacket p = p := by
  unfold tickPacket
  simp [h]

/-!
## Reachable-state invariant -/

/-- The per-packet invariant maintained by every operation:
never dropped, the position is a valid index into the path, and a
delivered packet rests at the last index. -/
def PacketInv (p : Packet) : Prop :=
  p.status ≠ .dropped ∧
  p.currentPosition < p.path.length ∧
  (p.status = .delivered → p.currentPosition = p.path.length - 1)

theorem tickPacket_packetInv {p : Packet} (h : PacketInv p) :
    PacketInv (tickPacket p) := by
  obtain ⟨hnd, hpos, hdel⟩ := h
  unfold tickPacket
  by_cases hm : p.status ≠ PacketStatus.moving
  · simpa [hm] using ⟨hnd, hpos, hdel⟩
  · push_neg at hm
    by_cases h2 : p.currentPosition + 1 ≥ p.path.length
    · simp only [hm, ne_eq, not_true_eq_false, if_false, ge_iff_le, h2,
        if_true]
      refine ⟨by simp, by simpa using hpos, ?_⟩
      intro _
      simp only
      omega
    · simp only [hm, ne_eq, not_true_eq_false, if_false, ge_iff_le, h2,
        if_true]
      refine ⟨by simpa using hnd, by simp; omega, ?_⟩
      intro hc
      simp at hc

/-- The state invariant: all packets satisfy `PacketInv`, and the
successful/dropped counters are untouched (they are only displayed, never
written). -/
def StateInv (σ : SimState) : Prop :=
  (∀ p ∈ σ.packets, PacketInv p) ∧
  σ.networkStats.successfulPackets = 0 ∧
  σ.networkStats.droppedPackets = 0

theorem stateInv_init : StateInv initState := by
  refine ⟨?_, rfl, rfl⟩
  intro p hp
  simp [initState] at hp

theorem stateInv_step {σ σ' : SimState} (h : Step σ σ') (hinv : StateInv σ) :
    StateInv σ' := by
  obtain ⟨hpk, hsucc, hdrop⟩ := hinv
  cases h with
  | send source destination data now =>
    unfold sendPacketOp
    by_cases hempty : (findPath source destination σ.nodes).length = 0
    · simpa [hempty] using ⟨hpk, hsucc, hdrop⟩
    · simp only [hempty, if_false]
      refine ⟨?_, ?_, ?_⟩
      · intro p hp
        simp only [List.mem_append, List.mem_singleton] at hp
        rcases hp with hp | hp
        · exact hpk p hp
        · subst hp
          refine ⟨by simp, ?_, by simp⟩
          simp only
          omega
      · simpa [updateNetworkStatsFn_successful] using hsucc
      · simpa [updateNetworkStatsFn_dropped] using hdrop
  | tick =>
    refine ⟨?_, by simpa [tickOp_stats] using hsucc,
      by simpa [tickOp_stats] using hdrop⟩
    intro p hp
    simp only [tickOp, List.mem_map] at hp
    obtain ⟨q, hq, rfl⟩ := hp
    exact tickPacket_packetInv (hpk q hq)
  | nodePress nodeId =>
    exact ⟨by rw [handleNodePressOp_packets]; exact hpk,
      by rw [handleNodePressOp_stats]; exact hsucc,
      by rw [handleNodePressOp_stats]; exact hdrop⟩
  | addNode t ip =>
    exact ⟨by rw [addNodeOp_packets]; exact hpk,
      by rw [addNodeOp_stats]; exact hsucc,
      by rw [addNodeOp_stats]; exact hdrop⟩
  | applyTopology newNodes =>
    exact ⟨by rw [applyTopologyOp_packets]; exact hpk,
      by rw [applyTopologyOp_stats]; exact hsucc,
      by rw [applyTopologyOp_stats]; exact hdrop⟩
  | applyScenario k failedNodes =>
    exact ⟨by rw [applyScenarioOp_packets]; exact hpk,
      by rw [applyScenarioOp_stats]; exact hsucc,
      by rw [applyScenarioOp_stats]; exact hdrop⟩
  | loadConfig config =>
    exact ⟨by rw [loadConfigOp_packets]; exact hpk,
      by rw [loadConfigOp_stats]; exact hsucc,
      by rw [loadConfigOp_stats]; exact hdrop⟩
  | selectPacketType t =>
    exact ⟨hpk, hsucc, hdrop⟩

/-- Every reachable state satisfies the invariant. -/
theorem reach_stateInv {σ : SimState} (h : Reach σ) : StateInv σ := by
  induction h with
  | refl => exact stateInv_init
  | tail _ hstep ih => exact stateInv_step hstep ih

theorem Reach.step {σ σ' : SimState} (h : Reach σ) (hs : Step σ σ') :
    Reach σ' :=
  Relation.ReflTransGen.tail h hs

theorem reach_lineState : Reach lineState :=
  Relation.ReflTransGen.single (Step.applyTopology initState lineNodes)

/-- `findPath` on the line topology. -/
theorem findPath_lineNodes : findPath "A" "C" lineNodes = ["A", "B", "C"] := by
  simp [findPath, bfsLoop, pushUnvisited, adj, List.find?, lineNodes]

/-!
## Claims -/

/-- C2 (counterexample): in the A—B—C line topology, after
`sendPacket(A, C, ...)` and exactly two ticks the packet's
`currentPosition` is 2 as the claim states, but its status is still
`moving`, not `delivered` as the claim asserts. -/
theorem C2_counterexample :
    (tickOp (tickOp (sendPacketOp "A" "C" "hello" 0 lineState))).packets.map
        (fun p => (p.currentPosition, p.status)) =
      [(2, PacketStatus.moving)] ∧
    PacketStatus.moving ≠ PacketStatus.delivered := by
  constructor
  · simp [sendPacketOp, lineState, applyTopologyOp, initState,
      findPath_lineNodes, tickOp, tickPacket]
  · simp

/-- C2 (amended): in the three-node line topology A—B—C,
`sendPacket(A, C, data)` creates a packet with path `[A, B, C]`,
`currentPosition` 0 and status `moving`; after one tick the packet has
`currentPosition` 1 and status `moving`; after a second tick it has
`currentPosition` 2 and status still `moving`; only after a third tick
does its status become `delivered`, with `currentPosition` remaining 2. -/
theorem C2_line_delivery :
    (sendPacketOp "A" "C" "hello" 0 lineState).packets.map
        (fun p => (p.path, p.currentPosition, p.status)) =
      [(["A", "B", "C"], 0, PacketStatus.moving)] ∧
    (tickOp (sendPacketOp "A" "C" "hello" 0 lineState)).packets.map
        (fun p => (p.currentPosition, p.status)) =
      [(1, PacketStatus.moving)] ∧
    (tickOp (tickOp (sendPacketOp "A" "C" "hello" 0 lineState))).packets.map
        (fun p => (p.currentPosition, p.status)) =
      [(2, PacketStatus.moving)] ∧
    (tickOp (tickOp (tickOp
        (sendPacketOp "A" "C" "hello" 0 lineState)))).packets.map
        (fun p => (p.currentPosition, p.status)) =
      [(2, PacketStatus.delivered)] := by
  refine ⟨?_, ?_, ?_, ?_⟩ <;>
    simp [sendPacketOp, lineState, applyTopologyOp, initState,
      findPath_lineNodes, tickOp, tickPacket]

/-- C3 (counterexample): in the line scenario, two ticks after the send
the packet's `currentPosition` equals `path.length - 1` (2 = 3 - 1) while
its status is `moving`, so "currentPosition = len(path)-1 implies status
delivered" is false. -/
theorem C3_counterexample :
    (tickOp (tickOp (sendPacketOp "A" "C" "inv" 0 lineState))).packets.map
        (fun p => (p.currentPosition, p.path.length, p.status)) =
      [(2, 3, PacketStatus.moving)] ∧
    (2 : Nat) = 3 - 1 ∧
    PacketStatus.moving ≠ PacketStatus.delivered := by
  refine ⟨?_, rfl, by simp⟩
  simp [sendPacketOp, lineState, applyTopologyOp, initState,
    findPath_lineNodes, tickOp, tickPacket]

/-- C3 (amended): in every reachable state, every packet's
`currentPosition` is a valid index into its path
(`currentPosition < path.length`); and whenever the status is `delivered`
the position equals `len(path) - 1` (the converse of the claimed
implication; the claimed direction fails, see the counterexample). -/
theorem C3_position_valid (σ : SimState) (h : Reach σ) :
    ∀ p ∈ σ.packets,
      p.currentPosition < p.path.length ∧
      (p.status = PacketStatus.delivered →
        p.currentPosition = p.path.length - 1) := by
  intro p hp
  obtain ⟨hpk, _, _⟩ := reach_stateInv h
  obtain ⟨_, hpos, hdel⟩ := hpk p hp
  exact ⟨hpos, hdel⟩

/-- The packet of the line scenario one tick after the send. -/
def linePacket1 : Packet :=
  { id := "p0", source := "A", destination := "C", data := "inv",
    path := ["A", "B", "C"], currentPosition := 1,
    status := PacketStatus.moving, type := PacketType.TCP, timestamp := 0 }

theorem C3_witness :
    linePacket1.currentPosition < linePacket1.path.length ∧
    (linePacket1.status = PacketStatus.delivered →
      linePacket1.currentPosition = linePacket1.path.length - 1) := by
  refine C3_position_valid (tickOp (sendPacketOp "A" "C" "inv" 0 lineState))
    ((reach_lineState.step (Step.send lineState "A" "C" "inv" 0)).step
      (Step.tick _)) linePacket1 ?_
  simp [sendPacketOp, lineState, applyTopologyOp, initState,
    findPath_lineNodes, tickOp, tickPacket, linePacket1]
  decide

/-- C5: a packet's `path` (and its identity fields) never change after
creation: the tick body preserves every field except `currentPosition` and
`status` (also after any number of ticks), and the graph-mutating
operations — creating a connection, adding a node, applying a topology
preset, applying a scenario, loading a saved configuration — leave the
packet list untouched. -/
theorem C5_path_fixed :
    (∀ p : Packet,
      (tickPacket p).path = p.path ∧
      (tickPacket p).id = p.id ∧
      (tickPacket p).source = p.source ∧
      (tickPacket p).destination = p.destination ∧
      (tickPacket p).data = p.data ∧
      (tickPacket p).type = p.type ∧
      (tickPacket p).timestamp = p.timestamp) ∧
    (∀ (p : Packet) (n : Nat), (tickPacket^[n] p).path = p.path) ∧
    (∀ (σ : SimState) (nodeId : String),
      (handleNodePressOp nodeId σ).packets = σ.packets) ∧
    (∀ (σ : SimState) (t : NodeType) (ip : String),
      (addNodeOp t ip σ).packets = σ.packets) ∧
    (∀ (σ : SimState) (newNodes : List NetworkNode),
      (applyTopologyOp newNodes σ).packets = σ.packets) ∧
    (∀ (σ : SimState) (k : ScenarioKind) (failedNodes : List NetworkNode),
      (applyScenarioOp k failedNodes σ).packets = σ.packets) ∧
    (∀ (σ : SimState) (config : NetworkConfig),
      (loadConfigOp config σ).packets = σ.packets) := by
  refine ⟨tickPacket_frame, ?_,
    fun σ nodeId => handleNodePressOp_packets nodeId σ,
    fun σ t ip => addNodeOp_packets t ip σ,
    fun σ newNodes => applyTopologyOp_packets newNodes σ,
    fun σ k failedNodes => applyScenarioOp_packets k failedNodes σ,
    fun σ config => loadConfigOp_packets config σ⟩
  intro p n
  induction n with
  | zero => rfl
  | succ n ih =>
    rw [Function.iterate_succ_apply']
    rw [(tickPacket_frame _).1, ih]

/-- C7: no packet is ever `dropped`: in every reachable state every
packet's status differs from `dropped`; the tick body either leaves the
status unchanged or moves `moving` to `delivered` (the only transition);
terminal (non-moving) packets are returned unchanged; and the tick result
depends only on the packet list — states agreeing on packets but differing
in nodes/connections (hence in any packet-loss or status fields) tick
identically. -/
theorem C7_never_dropped :
    (∀ σ : SimState, Reach σ →
      ∀ p ∈ σ.packets, p.status ≠ PacketStatus.dropped) ∧
    (∀ p : Packet,
      (tickPacket p).status = p.status ∨
      (p.status = PacketStatus.moving ∧
        (tickPacket p).status = PacketStatus.delivered)) ∧
    (∀ p : Packet, p.status ≠ PacketStatus.moving → tickPacket p = p) ∧
    (∀ σ σ' : SimState, σ.packets = σ'.packets →
      (tickOp σ).packets = (tickOp σ').packets) := by
  refine ⟨?_, ?_, fun p h => tickPacket_of_not_moving h, ?_⟩
  · intro σ h p hp
    exact ((reach_stateInv h).1 p hp).1
  · intro p
    unfold tickPacket
    by_cases hm : p.status ≠ PacketStatus.moving
    · left
      simp [hm]
    · push_neg at hm
      by_cases h2 : p.currentPosition + 1 ≥ p.path.length
      · right
        exact ⟨hm, by simp [hm, h2]⟩
      · left
        simp [hm, h2]
  · intro σ σ' h
    simp [tickOp, h]

theorem C7_witness :
    ∀ p ∈ (tickOp (sendPacketOp "A" "C" "x" 0 lineState)).packets,
      p.status ≠ PacketStatus.dropped :=
  C7_never_dropped.1 _
    ((reach_lineState.step (Step.send lineState "A" "C" "x" 0)).step
      (Step.tick _))

/-- C9: applying the tick body to a packet already in a terminal state
(`delivered` or `dropped`) leaves it unchanged — its `currentPosition` and
`status` are exactly as before — and so does any further number of
ticks. -/
theorem C9_terminal_tick_idempotent (p : Packet)
    (h : p.status = PacketStatus.delivered ∨
      p.status = PacketStatus.dropped) :
    ∀ n : Nat, tickPacket^[n] p = p := by
  have hfix : tickPacket p = p :=
    tickPacket_of_not_moving (by rcases h with h | h <;> simp [h])
  exact fun n => Function.iterate_fixed hfix n

/-- A delivered packet used as the concrete input of the C9 witness. -/
def deliveredPacket : Packet :=
  { id := "p1", source := "A", destination := "C", data := "x",
    path := ["A", "B", "C"], currentPosition := 2,
    status := PacketStatus.delivered, type := PacketType.TCP, timestamp := 0 }

theorem C9_witness :
    (deliveredPacket.status = PacketStatus.delivered ∨
      deliveredPacket.status = PacketStatus.dropped) ∧
    tickPacket^[5] deliveredPacket = deliveredPacket :=
  ⟨Or.inl rfl, C9_terminal_tick_idempotent deliveredPacket (Or.inl rfl) 5⟩

/-- C1: for every graph and every pair `(s, d)` such that `d` is reachable
from `s` through the connection-list adjacency, `findPath(s, d, nodes)`
returns a walk starting at `s` and ending at `d` whose length is minimal
among all such walks (i.e. it equals the shortest hop-count distance); and
on the diamond graph — where the two shortest paths A-B-D and A-C-D exist
and `B` precedes `C` in `A`'s connection list — the first-discovered path
through `B` is the one returned. -/
theorem C1_findPath_shortest :
    (∀ (nodes : List NetworkNode) (s d : String),
      ReachableId nodes s d →
        IsPathFrom nodes s (findPath s d nodes) ∧
        (findPath s d nodes).getLast? = some d ∧
        ∀ q, IsPathFrom nodes s q → q.getLast? = some d →
          (findPath s d nodes).length ≤ q.length) ∧
    findPath "A" "D" diamondNodes = ["A", "B", "D"] := by
  constructor
  · exact findPath_shortest
  · simp [findPath, bfsLoop, pushUnvisited, adj, List.find?, diamondNodes]

theorem C1_witness :
    IsPathFrom lineNodes "A" (findPath "A" "C" lineNodes) ∧
    (findPath "A" "C" lineNodes).getLast? = some "C" := by
  have hpf : IsPathFrom lineNodes "A" ["A", "B", "C"] := by
    constructor
    · rfl
    · simp [adj, lineNodes, List.find?]
  have h := C1_findPath_shortest.1 lineNodes "A" "C"
    ⟨["A", "B", "C"], hpf, by decide⟩
  exact ⟨h.1, h.2.1⟩

/-- The last node of a walk is the source itself or occurs in some node's
connection list. -/
theorem path_last_cases (nodes : List NetworkNode) :
    ∀ (q : List String) (s d : String), IsPathFrom nodes s q →
      q.getLast? = some d → d = s ∨ d ∈ allIds nodes := by
  intro q
  induction q with
  | nil =>
    intro s d h _
    exact absurd h.1 (by simp)
  | cons a t ih =>
    intro s d h hlast
    obtain ⟨hhead, hchain⟩ := h
    simp only [List.head?_cons, Option.some.injEq] at hhead
    cases t with
    | nil =>
      simp only [List.getLast?_singleton, Option.some.injEq] at hlast
      left
      rw [← hlast, hhead]
    | cons b t' =>
      have hchain' := List.chain'_cons.mp hchain
      have hlast' : (b :: t').getLast? = some d := by
        rw [getLast?_cons_of_ne_nil (by simp)] at hlast
        exact hlast
      rcases ih b d ⟨rfl, hchain'.2⟩ hlast' with h | h
      · right
        subst h
        exact adj_subset_allIds nodes a d hchain'.1
      · right
        exact h

theorem reachableId_cases {nodes : List NetworkNode} {s d : String}
    (h : ReachableId nodes s d) : d = s ∨ d ∈ allIds nodes := by
  obtain ⟨q, hq, hl⟩ := h
  exact path_last_cases nodes q s d hq hl

/-- C4: for every pair `(s, d)` with no path between them,
`findPath(s, d, nodes)` returns the empty sequence, and
`sendPacket(s, d, data)` performs no state mutation at all — the state
(packet set and `NetworkStats` included) is returned unchanged, and the
operation is total, so no error is reported. -/
theorem C4_unreachable_noop (σ : SimState) (s d data : String) (now : Nat)
    (h : ¬ ReachableId σ.nodes s d) :
    findPath s d σ.nodes = [] ∧ sendPacketOp s d data now σ = σ := by
  have h1 := findPath_eq_nil_of_not_reachable σ.nodes s d h
  refine ⟨h1, ?_⟩
  unfold sendPacketOp
  simp [h1]

theorem C4_witness :
    ¬ ReachableId initState.nodes "H1" "X" ∧
    findPath "H1" "X" initState.nodes = [] ∧
    sendPacketOp "H1" "X" "data" 5 initState = initState := by
  have hnr : ¬ ReachableId initState.nodes "H1" "X" := by
    intro h
    rcases reachableId_cases h with h' | h'
    · exact absurd h' (by decide)
    · exact absurd h' (by decide)
  have h2 := C4_unreachable_noop initState "H1" "X" "data" 5 hnr
  exact ⟨hnr, h2.1, h2.2⟩

/-- C6: for distinct existing nodes `a` and `b`, pressing `b` with `a`
selected (the source's connection creation) puts `b` into `a`'s link set
and `a` into `b`'s; and after the (spec-modelled) `removeConnection(a,b)`,
neither id appears in the other's link set. -/
theorem C6_connection_symmetry :
    (∀ (σ : SimState) (a b : String),
      σ.selectedNode = some a → a ≠ b →
      (∃ na ∈ σ.nodes, na.id = a) → (∃ nb ∈ σ.nodes, nb.id = b) →
      (∃ na ∈ (handleNodePressOp b σ).nodes,
        na.id = a ∧ b ∈ na.connections) ∧
      (∃ nb ∈ (handleNodePressOp b σ).nodes,
        nb.id = b ∧ a ∈ nb.connections)) ∧
    (∀ (σ : SimState) (a b : String),
      ∀ n ∈ (removeConnectionOp a b σ).nodes,
        (n.id = a → b ∉ n.connections) ∧
        (n.id = b → a ∉ n.connections)) := by
  constructor
  · intro σ a b hsel hne hna hnb
    obtain ⟨na, hnam, hnaid⟩ := hna
    obtain ⟨nb, hnbm, hnbid⟩ := hnb
    unfold handleNodePressOp
    rw [hsel]
    simp only [if_pos hne]
    constructor
    · refine ⟨_, List.mem_map_of_mem _ hnam, ?_, ?_⟩
      · simp [hnaid]
      · simp [hnaid]
    · have hnbne : ¬ nb.id = a := by
        rw [hnbid]
        exact fun hh => hne hh.symm
      refine ⟨_, List.mem_map_of_mem _ hnbm, ?_, ?_⟩
      · simp [hnbne, hnbid, Ne.symm hne]
      · simp [hnbne, hnbid, Ne.symm hne]
  · intro σ a b n hn
    unfold removeConnectionOp at hn
    simp only [List.mem_map] at hn
    obtain ⟨m, _, rfl⟩ := hn
    by_cases hma : m.id = a
    · rw [if_pos hma]
      constructor
      · intro _
        simp [List.mem_filter]
      · intro hid
        simp only at hid
        have hab : a = b := by rw [← hma, hid]
        subst hab
        simp [List.mem_filter]
    · rw [if_neg hma]
      by_cases hmb : m.id = b
      · rw [if_pos hmb]
        constructor
        · intro hid
          simp only at hid
          exact absurd hid hma
        · intro _
          simp [List.mem_filter]
      · rw [if_neg hmb]
        exact ⟨fun hid => absurd hid hma, fun hid => absurd hid hmb⟩

theorem C6_witness :
    (∃ na ∈ (handleNodePressOp "H4"
        { initState with selectedNode := some "H1" }).nodes,
      na.id = "H1" ∧ "H4" ∈ na.connections) ∧
    (∃ nb ∈ (handleNodePressOp "H4"
        { initState with selectedNode := some "H1" }).nodes,
      nb.id = "H4" ∧ "H1" ∈ nb.connections) :=
  C6_connection_symmetry.1 _ "H1" "H4" rfl (by decide) (by decide) (by decide)

/-- C8: the congestion scenario setup is deterministic — it is a pure
function of the `{nodes, connections}` input, equal inputs give equal
outputs — and its transform sets every node active with latency tripled
and packet loss doubled (node bandwidth untouched), sets every connection
active with latency tripled, packet loss doubled and bandwidth halved, and
clears the packet filters. -/
theorem C8_congestion_deterministic :
    (∀ (ns ns' : List NetworkNode) (cs cs' : List Connection),
      ns = ns' → cs = cs' → congestionSetup ns cs = congestionSetup ns' cs') ∧
    (∀ (ns : List NetworkNode) (cs : List Connection),
      (congestionSetup ns cs).packetFilters = [] ∧
      (∀ (i : Nat), i < ns.length →
        (congestionSetup ns cs).nodes[i]?.map
            (fun m => (m.id, m.status, m.latency, m.packetLoss,
              m.bandwidth)) =
          ns[i]?.map (fun m => (m.id, NodeStatus.active, m.latency * 3,
            m.packetLoss * 2, m.bandwidth))) ∧
      (∀ (i : Nat), i < cs.length →
        (congestionSetup ns cs).connections[i]?.map
            (fun c => (c.id, c.status, c.latency, c.packetLoss,
              c.bandwidth)) =
          cs[i]?.map (fun c => (c.id, ConnStatus.active, c.latency * 3,
            c.packetLoss * 2, c.bandwidth * (1/2))))) := by
  refine ⟨?_, ?_⟩
  · intro ns ns' cs cs' h1 h2
    rw [h1, h2]
  · intro ns cs
    refine ⟨rfl, ?_, ?_⟩
    · intro i _
      simp only [congestionSetup, List.getElem?_map, Option.map_map]
      cases ns[i]? <;> rfl
    · intro i _
      simp only [congestionSetup, List.getElem?_map, Option.map_map]
      cases cs[i]? <;> rfl

/-- Concrete node input for the C8 witness. -/
def c8Node : NetworkNode :=
  { id := "N", type := .host, label := "N", x := 0, y := 0,
    connections := [], status := .inactive, ip := none, bandwidth := 10,
    latency := 2, packetLoss := 1/10 }

/-- Concrete connection input for the C8 witness. -/
def c8Conn : Connection :=
  { id := "c", «from» := "N", «to» := "M", bandwidth := 100, latency := 1,
    packetLoss := 1/20, status := .inactive }

theorem C8_witness :
    congestionSetup [c8Node] [c8Conn] = congestionSetup [c8Node] [c8Conn] ∧
    (congestionSetup [c8Node] [c8Conn]).packetFilters = [] ∧
    (congestionSetup [c8Node] [c8Conn]).nodes[0]?.map
        (fun m => (m.id, m.status, m.latency, m.packetLoss, m.bandwidth)) =
      some ("N", NodeStatus.active, 6, 1/5, 10) ∧
    (congestionSetup [c8Node] [c8Conn]).connections[0]?.map
        (fun c => (c.id, c.status, c.latency, c.packetLoss, c.bandwidth)) =
      some ("c", ConnStatus.active, 3, 1/10, 50) := by
  refine ⟨C8_congestion_deterministic.1 _ _ _ _ rfl rfl,
    (C8_congestion_deterministic.2 [c8Node] [c8Conn]).1, ?_, ?_⟩
  · rw [(C8_congestion_deterministic.2 [c8Node] [c8Conn]).2.1 0 (by decide)]
    norm_num [c8Node]
  · rw [(C8_congestion_deterministic.2 [c8Node] [c8Conn]).2.2 0 (by decide)]
    norm_num [c8Conn]

/-!
## Association-list lemmas for `nodeStats` (claim C10) -/

theorem statLookup_cons (e : String × NodeStat)
    (t : List (String × NodeStat)) (j : String) :
    statLookup (e :: t) j = if e.1 = j then some e.2 else statLookup t j := by
  unfold statLookup
  rw [List.find?_cons]
  by_cases h : e.1 = j
  · simp [h]
  · have hb : (e.1 == j) = false := by simp [h]
    simp [h, hb]

theorem statLookup_updateStat (ns : List (String × NodeStat)) (k j : String)
    (f : NodeStat → NodeStat) :
    statLookup (updateStat ns k f) j =
      if j = k then (statLookup ns j).map f else statLookup ns j := by
  induction ns with
  | nil => by_cases h : j = k <;> simp [statLookup, updateStat, h]
  | cons e t ih =>
    simp only [updateStat, List.map_cons] at ih ⊢
    simp only [statLookup_cons]
    by_cases hek : e.1 = k
    · by_cases hej : e.1 = j
      · have hjk : j = k := by rw [← hej, hek]
        simp [hek, hej, hjk]
      · have hjk : ¬ j = k := fun hh => hej (by rw [hek, ← hh])
        have hkj : ¬ k = j := fun hh => hjk hh.symm
        simp [hek, hej, hjk, hkj, ih]
    · by_cases hej : e.1 = j
      · have hjk : ¬ j = k := fun hh => hek (by rw [hej, hh])
        simp [hek, hej, hjk]
      · simp [hek, hej, ih]

theorem statLookup_append_sing (ns : List (String × NodeStat)) (k : String)
    (v : NodeStat) (h : statLookup ns k = none) :
    statLookup (ns ++ [(k, v)]) k = some v := by
  unfold statLookup at h ⊢
  have hf : List.find? (fun e => e.1 == k) ns = none := by
    rcases hx : List.find? (fun e => e.1 == k) ns with _ | e
    · exact hx
    · rw [hx] at h
      simp at h
  rw [List.find?_append, hf]
  simp [List.find?]

theorem statLookup_append_sing_other (ns : List (String × NodeStat))
    (k j : String) (v : NodeStat) (h : j ≠ k) :
    statLookup (ns ++ [(k, v)]) j = statLookup ns j := by
  unfold statLookup
  rw [List.find?_append]
  have hone : List.find? (fun e => e.1 == j) [(k, v)] = none := by
    simp only [List.find?]
    have : (k == j) = false := by
      simp only [beq_eq_false_iff_ne, ne_eq]
      exact fun hh => h hh.symm
    simp [this]
  rw [hone]
  cases List.find? (fun e => e.1 == j) ns <;> rfl

theorem statLookup_ensureStat_self (ns : List (String × NodeStat))
    (k : String) :
    statLookup (ensureStat ns k) k =
      some ((statLookup ns k).getD ⟨0, 0, 0, 0⟩) := by
  unfold ensureStat
  rcases h : statLookup ns k with _ | st
  · simp only [h]
    exact statLookup_append_sing ns k _ h
  · simp [h]

theorem statLookup_ensureStat_other (ns : List (String × NodeStat))
    (k j : String) (h : j ≠ k) :
    statLookup (ensureStat ns k) j = statLookup ns j := by
  unfold ensureStat
  rcases hh : statLookup ns k with _ | st
  · exact statLookup_append_sing_other ns k j _ h
  · rfl

/-- A projection of a lookup is preserved by an update whose function the
projection does not see. -/
theorem proj_updateStat {β : Type} (ns : List (String × NodeStat))
    (k j : String) (f : NodeStat → NodeStat) (g : NodeStat → β)
    (hf : ∀ st, g (f st) = g st) :
    (statLookup (updateStat ns k f) j).map g = (statLookup ns j).map g := by
  rw [statLookup_updateStat]
  by_cases h : j = k
  · rw [if_pos h, Option.map_map]
    rcases statLookup ns j with _ | st
    · rfl
    · simp [Function.comp, hf]
  · rw [if_neg h]

/-- The received-count (with default 0) is preserved by `ensureStat`. -/
theorem received_ensureStat (ns : List (String × NodeStat)) (k j : String) :
    ((statLookup (ensureStat ns k) j).map
        (fun st => st.packetsReceived)).getD 0 =
      ((statLookup ns j).map (fun st => st.packetsReceived)).getD 0 := by
  by_cases h : j = k
  · subst h
    rw [statLookup_ensureStat_self]
    rcases statLookup ns j with _ | st <;> simp
  · rw [statLookup_ensureStat_other ns k j h]

/-- The core of the received-counter bump: the ensure/ensure/sent/received
chain increments the destination's `packetsReceived` by one. -/
theorem received_bump_chain (pkt : Packet)
    (ns0 : List (String × NodeStat)) :
    (statLookup
        (updateStat
          (updateStat (ensureStat (ensureStat ns0 pkt.source)
            pkt.destination) pkt.source
            (fun st => { st with packetsSent := st.packetsSent + 1 }))
          pkt.destination
          (fun st => { st with packetsReceived := st.packetsReceived + 1 }))
        pkt.destination).map (fun st => st.packetsReceived) =
      some (((statLookup ns0 pkt.destination).map
        (fun st => st.packetsReceived)).getD 0 + 1) := by
  rw [statLookup_updateStat, if_pos rfl, Option.map_map]
  have hcomp : ((fun st : NodeStat => st.packetsReceived) ∘
      (fun st => { st with packetsReceived := st.packetsReceived + 1 })) =
      (fun st : NodeStat => st.packetsReceived + 1) := by
    funext st
    rfl
  rw [hcomp]
  rw [proj_updateStat _ pkt.source pkt.destination
    (fun st => { st with packetsSent := st.packetsSent + 1 })
    (fun st => st.packetsReceived + 1) (fun st => rfl)]
  rw [statLookup_ensureStat_self]
  have h1 : ((statLookup (ensureStat ns0 pkt.source)
      pkt.destination).getD ⟨0, 0, 0, 0⟩).packetsReceived =
      ((statLookup (ensureStat ns0 pkt.source) pkt.destination).map
        (fun st => st.packetsReceived)).getD 0 := by
    rcases statLookup (ensureStat ns0 pkt.source) pkt.destination with _ | st
      <;> rfl
  simp only [Option.map_some']
  rw [h1, received_ensureStat]

/-- After `updateNetworkStats`, the destination's `packetsReceived` counter
is one more than before. -/
theorem updateNetworkStatsFn_received (conns : List Connection)
    (stats : NetworkStats) (pkt : Packet) :
    (statLookup (updateNetworkStatsFn conns stats pkt).nodeStats
        pkt.destination).map (fun st => st.packetsReceived) =
      some (((statLookup stats.nodeStats pkt.destination).map
        (fun st => st.packetsReceived)).getD 0 + 1) := by
  unfold updateNetworkStatsFn
  simp only
  rcases hconn : conns.find? (fun c =>
      (c.«from» == pkt.source && c.«to» == pkt.destination) ||
      (c.«from» == pkt.destination && c.«to» == pkt.source)) with _ | conn
  · rw [hconn]
    simp only
    exact received_bump_chain pkt stats.nodeStats
  · rw [hconn]
    simp only
    rw [proj_updateStat _ pkt.source pkt.destination
      (fun st =>
        { st with
          averageLatency :=
            (st.averageLatency * ((st.packetsSent : ℚ) - 1) + conn.latency) /
              (st.packetsSent : ℚ),
          bandwidthUsage := st.bandwidthUsage + conn.bandwidth })
      (fun st => st.packetsReceived) (fun st => rfl)]
    exact received_bump_chain pkt stats.nodeStats

/-- C10: all `NetworkStats` updates happen at send time and none at
delivery: in every reachable state the `successfulPackets` and
`droppedPackets` counters are 0 (nothing ever writes them); the tick does
not touch the statistics at all; and every successful send immediately
increments the destination node's `packetsReceived` counter by one —
before the packet has traversed a single hop. -/
theorem C10_stats_at_send_time :
    (∀ σ : SimState, Reach σ →
      σ.networkStats.successfulPackets = 0 ∧
      σ.networkStats.droppedPackets = 0) ∧
    (∀ σ : SimState, (tickOp σ).networkStats = σ.networkStats) ∧
    (∀ (σ : SimState) (s d data : String) (now : Nat),
      findPath s d σ.nodes ≠ [] →
      (statLookup (sendPacketOp s d data now σ).networkStats.nodeStats
          d).map (fun st => st.packetsReceived) =
        some (((statLookup σ.networkStats.nodeStats d).map
          (fun st => st.packetsReceived)).getD 0 + 1)) := by
  refine ⟨?_, tickOp_stats, ?_⟩
  · intro σ h
    exact ⟨(reach_stateInv h).2.1, (reach_stateInv h).2.2⟩
  · intro σ s d data now hne
    unfold sendPacketOp
    rw [if_neg (by simpa using hne)]
    simp only
    exact updateNetworkStatsFn_received σ.connections σ.networkStats _

theorem C10_witness :
    (lineState.networkStats.successfulPackets = 0 ∧
      lineState.networkStats.droppedPackets = 0) ∧
    (statLookup (sendPacketOp "A" "C" "w" 0 lineState).networkStats.nodeStats
        "C").map (fun st => st.packetsReceived) =
      some (((statLookup lineState.networkStats.nodeStats "C").map
        (fun st => st.packetsReceived)).getD 0 + 1) := by
  refine ⟨C10_stats_at_send_time.1 lineState reach_lineState, ?_⟩
  refine C10_stats_at_send_time.2.2 lineState "A" "C" "w" 0 ?_
  rw [show lineState.nodes = lineNodes from rfl, findPath_lineNodes]
  simp

end NetSim
